import Mathlib

/-
Verification of the numerical pipeline of the repository
"Finding symmetry breaking order parameters with Euclidean Neural Networks"
(e3nn_symm_breaking).

The pipeline lives in three notebook variants:
  * perovskite_order_parameters_determine_irreps.ipynb   (main variant)
  * perovskite_order_parameters_spacegroup_74_from_62.ipynb (constrained variant)
  * perovskite_order_parameters_with_explicit_k.ipynb    (k-vector variant)

We embed the data-transformation core over the rationals: per-atom feature
composition (create_features, three variants), the minimum-image alignment
step (relative_vecs_62), the order-parameter regularizer (order_param_loss),
the two-phase joint-optimization iteration, the output-axis permutations
[1, 2, 0] and [2, 0, 1], and the reconstruction step (new_struct).
External collaborators (torch optimizers, pymatgen neighbor search, the
cosine function, the space-group detector) are modelled as explicitly
documented parameters or spec-modelled functions.
-/

namespace SymmBreaking

/-- Cartesian 3-vector with rational components; stands for a row of a
torch tensor whose trailing dimension is 3. -/
abbrev V3 : Type := ℚ × ℚ × ℚ

/-- Componentwise addition of 3-vectors. -/
def addV3 (a b : V3) : V3 := (a.1 + b.1, a.2.1 + b.2.1, a.2.2 + b.2.2)

/-- Componentwise subtraction of 3-vectors. -/
def subV3 (a b : V3) : V3 := (a.1 - b.1, a.2.1 - b.2.1, a.2.2 - b.2.2)

/-- Scalar multiple of a 3-vector. -/
def smulV3 (c : ℚ) (v : V3) : V3 := (c * v.1, c * v.2.1, c * v.2.2)

/-- Euclidean dot product of two 3-vectors. -/
def dotV3 (a b : V3) : ℚ := a.1 * b.1 + a.2.1 * b.2.1 + a.2.2 * b.2.2

/-- Squared Euclidean norm of a 3-vector. -/
def normSqV3 (v : V3) : ℚ := dotV3 v v

/-- Squared Euclidean distance between two points. -/
def distSq (a b : V3) : ℚ := normSqV3 (subV3 a b)

/-- A 3-vector as a 3-element list (a tensor row). -/
def toListV3 (v : V3) : List ℚ := [v.1, v.2.1, v.2.2]

/-- The axis permutation `[:, [1, 2, 0]]` applied to the regression targets
inside the training loss (`data.y[:, [1, 2, 0]]`) and to the special-site
coordinates inside the k-vector create_features
(`normalized_B_coords[:, [1, 2, 0]]`): output column j is input column
[1, 2, 0][j]. -/
def permIn {α : Type} (v : α × α × α) : α × α × α := (v.2.1, v.2.2, v.1)

/-- The axis permutation `[:, [2, 0, 1]]` applied to network predictions in
the reconstruction step (`output[:, [2, 0, 1]]` in all three notebooks):
output column j is input column [2, 0, 1][j]. -/
def permOut {α : Type} (v : α × α × α) : α × α × α := (v.2.2, v.1, v.2.1)

/-- Per-row L1 distance, the contribution of one atom to
`(output - target).abs()`: the sum of absolute componentwise differences. -/
def l1diffV3 (a b : V3) : ℚ := |a.1 - b.1| + |a.2.1 - b.2.1| + |a.2.2 - b.2.2|

/-- Total of `(output - target).abs()` over all atoms and components. -/
def absLossSum (os ys : List V3) : ℚ :=
  ((os.zip ys).map (fun p => l1diffV3 p.1 p.2)).sum

/-- The training loss `((output - target).abs()).mean()`: the mean over all
3 * N entries of the elementwise absolute difference. -/
def meanAbsLoss (os ys : List V3) : ℚ :=
  absLossSum os ys / (3 * (os.length : ℚ))

/-- Reconstruction step of all three notebooks: the new structure's Cartesian
coordinates are `struct_221.cart_coords + output[:, [2, 0, 1]]`, atom for
atom. -/
def new_struct_coords (cart pred : List V3) : List V3 :=
  List.zipWith (fun c o => addV3 c (permOut o)) cart pred

/-- The final validation step hands the reconstructed structure to the
external symmetry detector (pymatgen SpacegroupAnalyzer, a library call) to
obtain a space-group number; the detector itself is a parameter. -/
def space_group_of (detect : List V3 → ℕ) (cart pred : List V3) : ℕ :=
  detect (new_struct_coords cart pred)

/- Helper lemmas on list indexing. -/

theorem get?_zipWith {α β γ : Type} (f : α → β → γ) :
    ∀ (as : List α) (bs : List β) (i : ℕ) (a : α) (b : β),
      as.get? i = some a → bs.get? i = some b →
      (List.zipWith f as bs).get? i = some (f a b) := by
  intro as
  induction as with
  | nil => intro bs i a b h; simp at h
  | cons x xs ih =>
    intro bs i a b ha hb
    cases bs with
    | nil => simp at hb
    | cons y ys =>
      cases i with
      | zero =>
        simp at ha hb
        simp [List.zipWith, ha, hb]
      | succ n =>
        simp only [List.get?] at ha hb
        simpa [List.zipWith] using ih ys n a b ha hb

/-- Claim C9: the axis permutation [1, 2, 0] applied to the targets in the
training loss and the permutation [2, 0, 1] applied to the predictions in
the reconstruction step are mutually inverse, and the mean absolute loss is
the same whether the target is permuted by [1, 2, 0] or the prediction is
permuted by [2, 0, 1]. -/
theorem C9_permutations_mutually_inverse (os ys : List V3) (v : V3)
    (h : os.length = ys.length) :
    permOut (permIn v) = v ∧ permIn (permOut v) = v ∧
    meanAbsLoss os (ys.map permIn) = meanAbsLoss (os.map permOut) ys := by
  refine ⟨rfl, rfl, ?_⟩
  have hsum : absLossSum os (ys.map permIn) = absLossSum (os.map permOut) ys := by
    clear h
    induction os generalizing ys with
    | nil => cases ys <;> simp [absLossSum]
    | cons o os ih =>
      cases ys with
      | nil => simp [absLossSum]
      | cons y ys =>
        have hh : l1diffV3 o (permIn y) = l1diffV3 (permOut o) y := by
          simp only [l1diffV3, permIn, permOut]
          ring
        simp only [List.map_cons, absLossSum, List.zip_cons_cons, List.sum_cons]
        have := ih ys
        simp only [absLossSum] at this
        rw [hh, this]
  unfold meanAbsLoss
  rw [hsum, List.length_map]

/-- Claim C9 witness at a concrete prediction/target pair. -/
theorem C9_permutations_mutually_inverse_witness :
    permOut (permIn ((1 : ℚ), (2 : ℚ), (3 : ℚ))) = ((1 : ℚ), (2 : ℚ), (3 : ℚ)) ∧
    permIn (permOut ((1 : ℚ), (2 : ℚ), (3 : ℚ))) = ((1 : ℚ), (2 : ℚ), (3 : ℚ)) ∧
    meanAbsLoss [((1 : ℚ), (0 : ℚ), (0 : ℚ))] ([((0 : ℚ), (2 : ℚ), (0 : ℚ))].map permIn)
      = meanAbsLoss ([((1 : ℚ), (0 : ℚ), (0 : ℚ))].map permOut) [((0 : ℚ), (2 : ℚ), (0 : ℚ))] :=
  C9_permutations_mutually_inverse
    [((1 : ℚ), (0 : ℚ), (0 : ℚ))] [((0 : ℚ), (2 : ℚ), (0 : ℚ))]
    ((1 : ℚ), (2 : ℚ), (3 : ℚ)) (by decide)

/-- Claim C5: atom for atom, the reconstructed structure's Cartesian
coordinates are the reference coordinates plus the prediction with the
output-axis permutation [2, 0, 1] applied to its components (column 0
receives prediction component 2, column 1 component 0, column 2
component 1); the resulting coordinates are what is handed to the external
symmetry detector. -/
theorem C5_reconstruction_coords (detect : List V3 → ℕ)
    (cart pred : List V3) (i : ℕ) (c p : V3)
    (hc : cart.get? i = some c) (hp : pred.get? i = some p) :
    (new_struct_coords cart pred).get? i
        = some (c.1 + p.2.2, c.2.1 + p.1, c.2.2 + p.2.1) ∧
    space_group_of detect cart pred = detect (new_struct_coords cart pred) := by
  constructor
  · have := get?_zipWith (fun c o => addV3 c (permOut o)) cart pred i c p hc hp
    simpa [new_struct_coords, addV3, permOut] using this
  · rfl

/-- Claim C5 witness at a concrete one-atom structure. -/
theorem C5_reconstruction_coords_witness :
    (new_struct_coords [((1 : ℚ), (2 : ℚ), (3 : ℚ))] [((10 : ℚ), (20 : ℚ), (30 : ℚ))]).get? 0
        = some ((1 : ℚ) + 30, (2 : ℚ) + 10, (3 : ℚ) + 20) ∧
    space_group_of (fun _ => 62) [((1 : ℚ), (2 : ℚ), (3 : ℚ))] [((10 : ℚ), (20 : ℚ), (30 : ℚ))]
        = (fun _ => 62) (new_struct_coords [((1 : ℚ), (2 : ℚ), (3 : ℚ))]
            [((10 : ℚ), (20 : ℚ), (30 : ℚ))]) :=
  C5_reconstruction_coords (fun _ => 62)
    [((1 : ℚ), (2 : ℚ), (3 : ℚ))] [((10 : ℚ), (20 : ℚ), (30 : ℚ))] 0
    ((1 : ℚ), (2 : ℚ), (3 : ℚ)) ((10 : ℚ), (20 : ℚ), (30 : ℚ)) (by decide) (by decide)

/- Joint training loop (two alternating phases per iteration). -/

/-- Modelled from the spec: a torch optimizer step (torch.optim.Adam, an
external library, absent from the repository) over a parameter store.
Following the spec's description of the two optimizers, a step rewrites
exactly the parameter entries registered with that optimizer and leaves
every other entry of the store unchanged. -/
def opt_step (registered : List ℕ) (upd : ℕ → ℚ → ℚ) (σ : ℕ → ℚ) : ℕ → ℚ :=
  fun i => if i ∈ registered then upd i (σ i) else σ i

/-- Parameter registration of the two optimizers of the training loop:
`opt = Adam(model.parameters(), ...)` registers the network weights, and
`order_opt = Adam([order_param_input], ...)` registers the entries of the
order-parameter tensor. -/
structure TrainParams where
  modelParams : List ℕ
  orderParams : List ℕ

/-- Model-update phase of one training iteration: the reconstruction loss is
backpropagated and `opt.step()` is applied once, so exactly the parameters
registered with `opt` (the network weights) are rewritten. -/
def model_update_phase (cfg : TrainParams) (upd : ℕ → ℚ → ℚ) (σ : ℕ → ℚ) : ℕ → ℚ :=
  opt_step cfg.modelParams upd σ

/-- Order-update phase of one training iteration: the regularized loss is
backpropagated and `order_opt.step()` is applied once, so exactly the
parameters registered with `order_opt` (the order-parameter entries) are
rewritten. -/
def order_update_phase (cfg : TrainParams) (upd : ℕ → ℚ → ℚ) (σ : ℕ → ℚ) : ℕ → ℚ :=
  opt_step cfg.orderParams upd σ

/-- One iteration of the joint training loop: the model-update phase
followed by the order-update phase. -/
def train_iteration (cfg : TrainParams) (updW updO : ℕ → ℚ → ℚ) (σ : ℕ → ℚ) : ℕ → ℚ :=
  order_update_phase cfg updO (model_update_phase cfg updW σ)

/-- Claim C1: in each training iteration, provided no order-parameter entry
is registered with the network optimizer (in the notebooks the two
optimizers hold disjoint parameter lists), the model-update phase applies
one optimizer step to the network weights and leaves every order-parameter
entry unchanged, and the order-update phase applies one optimizer step to
the order parameters and leaves every network weight unchanged; hence over
a full iteration each parameter receives exactly its own optimizer's
single update. -/
theorem C1_two_phase_frame (cfg : TrainParams) (updW updO : ℕ → ℚ → ℚ)
    (σ τ : ℕ → ℚ)
    (hdisj : ∀ i ∈ cfg.orderParams, i ∉ cfg.modelParams) :
    (∀ i ∈ cfg.orderParams, model_update_phase cfg updW σ i = σ i) ∧
    (∀ i ∈ cfg.modelParams, model_update_phase cfg updW σ i = updW i (σ i)) ∧
    (∀ j ∈ cfg.modelParams, order_update_phase cfg updO τ j = τ j) ∧
    (∀ j ∈ cfg.orderParams, order_update_phase cfg updO τ j = updO j (τ j)) ∧
    (∀ i ∈ cfg.orderParams, train_iteration cfg updW updO σ i = updO i (σ i)) ∧
    (∀ j ∈ cfg.modelParams, train_iteration cfg updW updO σ j = updW j (σ j)) := by
  refine ⟨?_, ?_, ?_, ?_, ?_, ?_⟩
  · intro i hi
    simp [model_update_phase, opt_step, hdisj i hi]
  · intro i hi
    simp [model_update_phase, opt_step, hi]
  · intro j hj
    have : j ∉ cfg.orderParams := fun hmem => hdisj j hmem hj
    simp [order_update_phase, opt_step, this]
  · intro j hj
    simp [order_update_phase, opt_step, hj]
  · intro i hi
    have hnot : i ∉ cfg.modelParams := hdisj i hi
    simp [train_iteration, order_update_phase, model_update_phase, opt_step, hi, hnot]
  · intro j hj
    have : j ∉ cfg.orderParams := fun hmem => hdisj j hmem hj
    simp [train_iteration, order_update_phase, model_update_phase, opt_step, hj, this]

/-- Claim C1 witness: a store with network weights at indices 0 and 1 and
the order parameter at index 2, concrete update rules, evaluated through a
full iteration. -/
theorem C1_two_phase_frame_witness :
    (∀ i ∈ ([2] : List ℕ), i ∉ ([0, 1] : List ℕ)) ∧
    (∀ i ∈ ([2] : List ℕ),
      model_update_phase ⟨[0, 1], [2]⟩ (fun _ x => x + 1) (fun i => (i : ℚ)) i = (i : ℚ)) ∧
    (∀ i ∈ ([2] : List ℕ),
      train_iteration ⟨[0, 1], [2]⟩ (fun _ x => x + 1) (fun _ x => x - 1)
        (fun i => (i : ℚ)) i = (i : ℚ) - 1) :=
  ⟨by decide,
   (C1_two_phase_frame ⟨[0, 1], [2]⟩ (fun _ x => x + 1) (fun _ x => x - 1)
      (fun i => (i : ℚ)) (fun i => (i : ℚ)) (by decide)).1,
   (C1_two_phase_frame ⟨[0, 1], [2]⟩ (fun _ x => x + 1) (fun _ x => x - 1)
      (fun i => (i : ℚ)) (fun i => (i : ℚ)) (by decide)).2.2.2.2.1⟩

/- Feature composition (create_features, three variants). -/

/-- One-hot atom-type encodings A_input, B_input, X_input of the notebooks;
atom index 0 is A, 1 is B, 2 is X. -/
def atomInput : Fin 3 → List ℚ
  | 0 => [1, 0, 0]
  | 1 => [0, 1, 0]
  | 2 => [0, 0, 1]

/-- Dimension rs.dim of a list of irreps (multiplicity m, order L, parity p):
the sum of m * (2L + 1) over the list. -/
def rsDim (Rs : List (ℕ × ℕ × ℤ)) : ℕ :=
  (Rs.map (fun r => r.1 * (2 * r.2.1 + 1))).sum

/-- Rs_order_param of the main notebook: one copy each of L = 0, 1, 2 in
both parities, so rs.dim is 1 + 1 + 3 + 3 + 5 + 5 = 18. -/
def Rs_order_param : List (ℕ × ℕ × ℤ) :=
  [(1, 0, 1), (1, 0, -1), (1, 1, 1), (1, 1, -1), (1, 2, 1), (1, 2, -1)]

/-- create_features of the main notebook: a zero order-parameter block for
the first N - 4 atoms is stacked over the learnable 4 x 18 tensor, and each
atom's one-hot type row is concatenated with its order-parameter row.
`atomIndices` is the per-atom type list read off struct_221 (its length is
the atom count N). -/
def create_features (atomIndices : List (Fin 3)) (order_param_input : List (List ℚ)) :
    List (List ℚ) :=
  let zeros := List.replicate (atomIndices.length - 4)
    (List.replicate (rsDim Rs_order_param) (0 : ℚ))
  let order_param := zeros ++ order_param_input
  let all_atom_types := atomIndices.map atomInput
  List.zipWith (· ++ ·) all_atom_types order_param

/-- create_features of the constrained (74-from-62) notebook: the learnable
tensor has shape (2, 2) (the z component removed and values shared across
pairs of sites); the code rebuilds the 4 x 3 block as
`torch.stack([opi[:, 0].repeat(2), torch.zeros(4), opi[:, 1].repeat(2)], dim=-1)`
before stacking it under the zero block. -/
def create_features_constrained (atomIndices : List (Fin 3))
    (order_param_input : List (List ℚ)) : List (List ℚ) :=
  let col0 := order_param_input.map (fun row => row.getD 0 0)
  let col1 := order_param_input.map (fun row => row.getD 1 0)
  let new_order_param :=
    List.zipWith (fun a b => [a, (0 : ℚ), b]) (col0 ++ col0) (col1 ++ col1)
  let order_param :=
    List.replicate (atomIndices.length - 4) (List.replicate 3 (0 : ℚ)) ++ new_order_param
  List.zipWith (· ++ ·) (atomIndices.map atomInput) order_param

section KVecVariant

variable {R : Type} [CommRing R]

/-- Componentwise addition of triples over a commutative ring. -/
def add3 (a b : R × R × R) : R × R × R := (a.1 + b.1, a.2.1 + b.2.1, a.2.2 + b.2.2)

/-- Scalar multiple of a triple over a commutative ring. -/
def smul3 (c : R) (v : R × R × R) : R × R × R := (c * v.1, c * v.2.1, c * v.2.2)

/-- Dot product of triples over a commutative ring. -/
def dot3 (a b : R × R × R) : R := a.1 * b.1 + a.2.1 * b.2.1 + a.2.2 * b.2.2

/-- First stage of the k-vector create_features:
`torch.cos(2 * math.pi / vol * (kvecs.unsqueeze(0) * perm_normalized_B_coords.unsqueeze(1)).sum(-1))`
with vol = 1, giving the [site, k] matrix of cosines; row r, column k holds
the cosine of 2π times the dot product of k-vector k with the axis-permuted
coordinate of site r. The map c abstracts the function sending a number x
to the cosine of 2πx. -/
def kvec_cos_matrix (c : R → R) (kvecs coords : List (R × R × R)) :
    List (List R) :=
  (coords.map permIn).map (fun r => kvecs.map (fun k => c (dot3 k r)))

/-- Remaining stages of the k-vector create_features: the cosine matrix is
broadcast against the pseudo order parameters
(`order_param_input.unsqueeze(-1) * pseudo_order_param_input.unsqueeze(0)`)
and summed over the k axis (`.sum(-2)`), one 3-vector per special site. -/
def kvec_order_param (c : R → R) (kvecs pseudo coords : List (R × R × R)) :
    List (R × R × R) :=
  (kvec_cos_matrix c kvecs coords).map
    (fun arow => (List.zipWith smul3 arow pseudo).foldr add3 (0, 0, 0))

/-- Discrete Fourier synthesis at one coordinate: the sum over k of the
cosine of 2π times (kvector_k dot coord), times order_param[k]. Claim C2
asserts the k-vector create_features computes this at each special site's
normalized coordinate as passed in; the code computes it at the
axis-permuted coordinate instead. -/
def fourier_contribution (c : R → R) (kvecs pseudo : List (R × R × R))
    (coord : R × R × R) : R × R × R :=
  (List.zipWith (fun k p => smul3 (c (dot3 k coord)) p) kvecs pseudo).foldr add3 (0, 0, 0)

end KVecVariant

/-- create_features of the k-vector notebook: the synthesized 4 x 3 block is
checked by `assert list(order_param_input.shape) == [4, 3]` (modelled as the
none branch), stacked under the zero block, and concatenated with the
one-hot rows. -/
def create_features_kvec (c : ℚ → ℚ) (atomIndices : List (Fin 3))
    (kvecs pseudo coords : List V3) : Option (List (List ℚ)) :=
  let order_param_input := kvec_order_param c kvecs pseudo coords
  if order_param_input.length = 4 then
    some (List.zipWith (· ++ ·) (atomIndices.map atomInput)
      (List.replicate (atomIndices.length - 4) (List.replicate 3 (0 : ℚ))
        ++ order_param_input.map toListV3))
  else none

theorem length_atomInput (t : Fin 3) : (atomInput t).length = 3 := by
  fin_cases t <;> rfl

theorem exists_of_mem_zipWith {α β γ : Type} {f : α → β → γ} :
    ∀ {as : List α} {bs : List β} {c : γ}, c ∈ List.zipWith f as bs →
      ∃ a ∈ as, ∃ b ∈ bs, c = f a b := by
  intro as
  induction as with
  | nil => intro bs c h; simp at h
  | cons x xs ih =>
    intro bs c h
    cases bs with
    | nil => simp at h
    | cons y ys =>
      rcases List.mem_cons.mp h with h | h
      · exact ⟨x, List.mem_cons_self x xs, y, List.mem_cons_self y ys, h⟩
      · obtain ⟨a, ha, b, hb, rfl⟩ := ih h
        exact ⟨a, List.mem_cons_of_mem x ha, b, List.mem_cons_of_mem y hb, rfl⟩

/-- Claim C7: for order-parameter tensors of the declared valid shapes
(4 x 18 for the main notebook, 2 x 2 for the constrained notebook, both
with arbitrary entry values), create_features returns a matrix of shape
(N_atoms, 3 + order_param_dim): (N, 21) for the main variant and (N, 6)
for the constrained variant. The shape depends only on the hypotheses, not
on the magnitudes of the entries, which are universally quantified. -/
theorem C7_create_features_shape (atomIndices : List (Fin 3))
    (opi opi2 : List (List ℚ)) (N : ℕ)
    (hN : atomIndices.length = N) (h4 : 4 ≤ N)
    (hr : opi.length = 4) (hw : ∀ row ∈ opi, row.length = 18)
    (hr2 : opi2.length = 2) (hw2 : ∀ row ∈ opi2, row.length = 2) :
    ((create_features atomIndices opi).length = N ∧
      ∀ row ∈ create_features atomIndices opi, row.length = 3 + 18) ∧
    ((create_features_constrained atomIndices opi2).length = N ∧
      ∀ row ∈ create_features_constrained atomIndices opi2, row.length = 3 + 3) := by
  have hdim : rsDim Rs_order_param = 18 := rfl
  constructor
  · constructor
    · simp only [create_features, List.length_zipWith, List.length_map,
        List.length_append, List.length_replicate, hN, hr]
      rw [Nat.sub_add_cancel h4, min_self]
    · intro row hrow
      obtain ⟨a, ha, b, hb, rfl⟩ := exists_of_mem_zipWith hrow
      obtain ⟨t, _, rfl⟩ := List.mem_map.mp ha
      rw [List.length_append, length_atomInput]
      rcases List.mem_append.mp hb with hb | hb
      · rw [List.eq_of_mem_replicate hb, List.length_replicate, hdim]
      · rw [hw b hb]
  · constructor
    · simp only [create_features_constrained, List.length_zipWith, List.length_map,
        List.length_append, List.length_replicate, hN, hr2]
      omega
    · intro row hrow
      obtain ⟨a, ha, b, hb, rfl⟩ := exists_of_mem_zipWith hrow
      obtain ⟨t, _, rfl⟩ := List.mem_map.mp ha
      rw [List.length_append, length_atomInput]
      rcases List.mem_append.mp hb with hb | hb
      · rw [List.eq_of_mem_replicate hb, List.length_replicate]
      · obtain ⟨x, _, y, _, rfl⟩ := exists_of_mem_zipWith hb
        rfl

/-- Claim C7 witness: a 4-atom structure with concrete order-parameter
tensors of the declared shapes. -/
theorem C7_create_features_shape_witness :
    ((4 : ℕ) ≤ 4) ∧
    ((create_features [0, 1, 2, 1] (List.replicate 4 (List.replicate 18 (5 : ℚ)))).length = 4 ∧
      ∀ row ∈ create_features [0, 1, 2, 1] (List.replicate 4 (List.replicate 18 (5 : ℚ))),
        row.length = 3 + 18) :=
  ⟨by decide,
   (C7_create_features_shape [0, 1, 2, 1]
      (List.replicate 4 (List.replicate 18 (5 : ℚ)))
      (List.replicate 2 (List.replicate 2 (7 : ℚ))) 4
      (by decide) (by decide) (by decide)
      (by intro row hrow; rw [List.eq_of_mem_replicate hrow, List.length_replicate])
      (by decide)
      (by intro row hrow; rw [List.eq_of_mem_replicate hrow, List.length_replicate])).1⟩

theorem zero_block_aux (atomIndices : List (Fin 3)) (rest : List (List ℚ))
    (d i : ℕ) (hi : i < atomIndices.length - 4) :
    ((List.zipWith (· ++ ·) (atomIndices.map atomInput)
        (List.replicate (atomIndices.length - 4) (List.replicate d (0 : ℚ)) ++ rest)).getD i []).drop 3
      = List.replicate d (0 : ℚ) := by
  have hiN : i < atomIndices.length := lt_of_lt_of_le hi (Nat.sub_le _ _)
  obtain ⟨t, ht⟩ : ∃ t, atomIndices.get? i = some t := by
    rw [List.get?_eq_get hiN]; exact ⟨_, rfl⟩
  have h1 : (atomIndices.map atomInput).get? i = some (atomInput t) := by
    rw [List.get?_map, ht]; rfl
  have h2 : (List.replicate (atomIndices.length - 4) (List.replicate d (0 : ℚ)) ++ rest).get? i
      = some (List.replicate d (0 : ℚ)) := by
    rw [List.get?_append (by simpa using hi)]
    simp [List.get?_eq_getElem?, List.getElem?_replicate, hi]
  have h3 := get?_zipWith (· ++ ·) _ _ i _ _ h1 h2
  rw [List.getD_eq_getElem?_getD, ← List.get?_eq_getElem?, h3]
  have hlen : (atomInput t).length = 3 := length_atomInput t
  simp only [Option.getD_some]
  rw [← hlen, List.drop_left]

/-- Claim C8: in each of the three create_features variants, every
non-special atom (each of the first N - 4 atoms, all atoms except the last
4 special sites) receives an all-zero order-parameter block after its
3-entry one-hot block, for every value of the order-parameter tensor. -/
theorem C8_nonspecial_zero_block (c : ℚ → ℚ) (atomIndices : List (Fin 3))
    (opi opi2 : List (List ℚ)) (kvecs pseudo coords : List V3)
    (i : ℕ) (hi : i < atomIndices.length - 4) :
    ((create_features atomIndices opi).getD i []).drop 3 = List.replicate 18 (0 : ℚ) ∧
    ((create_features_constrained atomIndices opi2).getD i []).drop 3
        = List.replicate 3 (0 : ℚ) ∧
    (∀ fs, create_features_kvec c atomIndices kvecs pseudo coords = some fs →
      (fs.getD i []).drop 3 = List.replicate 3 (0 : ℚ)) := by
  refine ⟨?_, ?_, ?_⟩
  · exact zero_block_aux atomIndices opi 18 i hi
  · exact zero_block_aux atomIndices _ 3 i hi
  · intro fs hfs
    by_cases hlen : (kvec_order_param c kvecs pseudo coords).length = 4
    · simp only [create_features_kvec, hlen, if_true, Option.some.injEq] at hfs
      rw [← hfs]
      exact zero_block_aux atomIndices _ 3 i hi
    · simp [create_features_kvec, hlen] at hfs

/-- Claim C8 witness: a 5-atom structure, so atom 0 is non-special, with
concrete order-parameter values 5, 7 and concrete k-vector data. -/
theorem C8_nonspecial_zero_block_witness :
    (0 : ℕ) < [0, 1, 2, 1, 2].length - 4 ∧
    ((create_features [0, 1, 2, 1, 2]
        (List.replicate 4 (List.replicate 18 (5 : ℚ)))).getD 0 []).drop 3
      = List.replicate 18 (0 : ℚ) :=
  ⟨by decide,
   (C8_nonspecial_zero_block (fun x => x) [0, 1, 2, 1, 2]
      (List.replicate 4 (List.replicate 18 (5 : ℚ)))
      (List.replicate 2 (List.replicate 2 (7 : ℚ)))
      [((1 : ℚ), 0, 0)] [((1 : ℚ), 0, 0)]
      [((0 : ℚ), 0, 0), ((0 : ℚ), 0, 0), ((0 : ℚ), 0, 0), ((0 : ℚ), 0, 0)]
      0 (by decide)).1⟩

/-- Claim C10: in the k-vector create_features, if kvecs and
pseudo_order_param_input both have K rows and normalized_B_coords has 4
rows (each row a 3-vector by construction), the synthesized block has 4
rows of 3-vectors, so the internal shape assert holds and the function
returns features rather than failing. -/
theorem C10_kvec_assert_holds (c : ℚ → ℚ) (atomIndices : List (Fin 3))
    (kvecs pseudo coords : List V3) (K : ℕ)
    (hk : kvecs.length = K) (hp : pseudo.length = K) (hc : coords.length = 4) :
    (kvec_order_param c kvecs pseudo coords).length = 4 ∧
    (create_features_kvec c atomIndices kvecs pseudo coords).isSome = true := by
  have hlen : (kvec_order_param c kvecs pseudo coords).length = 4 := by
    simp [kvec_order_param, kvec_cos_matrix, hc]
  exact ⟨hlen, by simp [create_features_kvec, hlen]⟩

/-- Claim C10 witness: the notebook's own two k-vectors R and M1, a 2 x 3
pseudo order parameter, and four concrete normalized coordinates. -/
theorem C10_kvec_assert_holds_witness :
    ([((1 : ℚ)/2, 1/2, 1/2), ((1 : ℚ)/2, 0, 1/2)].length = 2) ∧
    (create_features_kvec (fun x => x) [0, 1, 2, 1, 2]
        [((1 : ℚ)/2, 1/2, 1/2), ((1 : ℚ)/2, 0, 1/2)]
        [((2 : ℚ), 0, 1), ((0 : ℚ), 3, 0)]
        [((0 : ℚ), 0, 0), ((1 : ℚ)/2, 0, 0), ((0 : ℚ), 1/2, 0), ((1 : ℚ)/2, 1/2, 0)]).isSome
      = true :=
  ⟨by decide,
   (C10_kvec_assert_holds (fun x => x) [0, 1, 2, 1, 2]
      [((1 : ℚ)/2, 1/2, 1/2), ((1 : ℚ)/2, 0, 1/2)]
      [((2 : ℚ), 0, 1), ((0 : ℚ), 3, 0)]
      [((0 : ℚ), 0, 0), ((1 : ℚ)/2, 0, 0), ((0 : ℚ), 1/2, 0), ((1 : ℚ)/2, 1/2, 0)]
      2 (by decide) (by decide) (by decide)).2⟩

/-- Claim C2 counterexample: with the cosine instantiated as the real
cosine of 2π times the argument, one k-vector (1, 0, 0), one pseudo order
parameter (1, 0, 0) and the single special-site coordinate (1/4, 0, 0),
the code's contribution is cos(0) * (1, 0, 0) = (1, 0, 0) because the code
takes the dot product with the axis-permuted coordinate (0, 0, 1/4),
whereas the claim's formula gives cos(π/2) * (1, 0, 0) = (0, 0, 0). -/
theorem C2_counterexample :
    kvec_order_param (fun q => Real.cos (2 * Real.pi * q))
        [((1 : ℝ), 0, 0)] [((1 : ℝ), 0, 0)] [((1/4 : ℝ), 0, 0)]
      ≠ [fourier_contribution (fun q => Real.cos (2 * Real.pi * q))
        [((1 : ℝ), 0, 0)] [((1 : ℝ), 0, 0)] ((1/4 : ℝ), 0, 0)] := by
  intro h
  have h1 := congrArg (fun l => (l.headI).1) h
  simp only [kvec_order_param, kvec_cos_matrix, fourier_contribution, permIn, dot3,
    smul3, add3, List.map_cons, List.map_nil, List.zipWith_cons_cons, List.zipWith_nil_right,
    List.foldr_cons, List.foldr_nil, List.headI] at h1
  norm_num at h1
  rw [show (2 : ℝ) * Real.pi * (1 / 4) = Real.pi / 2 by ring, Real.cos_pi_div_two] at h1
  simp [Real.cos_zero] at h1

/-- Claim C2 (amended): in the k-vector create_features, the contribution
at special site r is the discrete Fourier synthesis
sum over k of cos(2π · kvector_k · coord) * order_param[k], where coord is
the axis-permuted normalized coordinate of site r (the code permutes
normalized_B_coords by [1, 2, 0] before taking the dot products). -/
theorem C2_kvec_fourier_synthesis {R : Type} [CommRing R] (c : R → R)
    (kvecs pseudo coords : List (R × R × R)) (r : ℕ) (x : R × R × R)
    (hx : coords.get? r = some x) :
    (kvec_order_param c kvecs pseudo coords).get? r
      = some (fourier_contribution c kvecs pseudo (permIn x)) := by
  unfold kvec_order_param kvec_cos_matrix fourier_contribution
  rw [List.map_map, List.map_map, List.get?_map, hx]
  simp only [Option.map_some', Function.comp_apply]
  rw [List.zipWith_map_left]

/-- Claim C2 (amended) witness: one k-vector, one pseudo order parameter
and one site coordinate over the rationals, with the cosine abstracted as
the identity. -/
theorem C2_kvec_fourier_synthesis_witness :
    ([((1 : ℚ)/4, 0, 0)].get? 0 = some ((1 : ℚ)/4, 0, 0)) ∧
    (kvec_order_param (fun x => x) [((1 : ℚ), 0, 0)] [((1 : ℚ), 0, 0)]
        [((1 : ℚ)/4, 0, 0)]).get? 0
      = some (fourier_contribution (fun x => x) [((1 : ℚ), 0, 0)] [((1 : ℚ), 0, 0)]
        (permIn ((1 : ℚ)/4, 0, 0))) :=
  ⟨rfl,
   C2_kvec_fourier_synthesis (fun x => x) [((1 : ℚ), 0, 0)] [((1 : ℚ), 0, 0)]
     [((1 : ℚ)/4, 0, 0)] 0 ((1 : ℚ)/4, 0, 0) rfl⟩

/- Structure alignment (the relative_vecs_62 loop). -/

/-- Modelled from the spec: pymatgen's Structure.get_sites_in_sphere, an
external library call whose sources are absent from the repository.
Following the spec's description of the periodic matching step, it returns,
out of the candidate periodic images of the distorted structure's sites
(given as (site index, image coordinate) pairs enumerated in site-index
order), exactly those lying within the search radius of the center,
preserving their enumeration order. -/
def get_sites_in_sphere (images : List (ℕ × V3)) (center : V3) (radius : ℚ) :
    List (ℕ × V3) :=
  images.filter (fun s => decide (distSq s.2 center < radius ^ 2))

/-- Stable minimum by a rational key: the first element attaining the
minimal key, which is what sorted(..., key=...)[0] yields under Python's
stable sort; empty input gives none (sorted(...)[0] raises IndexError). -/
def stableMinBy {α : Type} (key : α → ℚ) : List α → Option α
  | [] => none
  | a :: rest =>
      some (rest.foldl (fun best x => if key x < key best then x else best) a)

/-- Alignment step of the notebooks (the relative_vecs_62 loop body): for
one reference atom at center, query the distorted structure for site images
within radius 1., sort the result by distance taking the first entry, and
subtract the reference coordinates. -/
def relative_vec (images : List (ℕ × V3)) (center : V3) (radius : ℚ) : Option V3 :=
  match stableMinBy (fun s => distSq s.2 center) (get_sites_in_sphere images center radius) with
  | none => none
  | some s => some (subV3 s.2 center)

/-- Translation of claim C4's search rule: the same computation restricted
to the periodic images of the corresponding distorted-structure atom, the
site whose index equals the reference atom's index. Stated for comparison
with the code's relative_vec, which searches the images of every site. -/
def relative_vec_corresponding (i : ℕ) (images : List (ℕ × V3)) (center : V3)
    (radius : ℚ) : Option V3 :=
  relative_vec (images.filter (fun s => s.1 == i)) center radius

theorem foldl_min_spec {α : Type} (key : α → ℚ) :
    ∀ (l : List α) (b : α),
      (l.foldl (fun best x => if key x < key best then x else best) b = b ∨
        l.foldl (fun best x => if key x < key best then x else best) b ∈ l) ∧
      key (l.foldl (fun best x => if key x < key best then x else best) b) ≤ key b ∧
      ∀ x ∈ l, key (l.foldl (fun best x => if key x < key best then x else best) b) ≤ key x := by
  intro l
  induction l with
  | nil => intro b; exact ⟨Or.inl rfl, le_rfl, by intro x hx; simp at hx⟩
  | cons y ys ih =>
    intro b
    have hstep : key (if key y < key b then y else b) ≤ key b ∧
        key (if key y < key b then y else b) ≤ key y := by
      by_cases hlt : key y < key b
      · rw [if_pos hlt]; exact ⟨le_of_lt hlt, le_rfl⟩
      · rw [if_neg hlt]; exact ⟨le_rfl, le_of_not_lt hlt⟩
    obtain ⟨hmem, hle, hall⟩ := ih (if key y < key b then y else b)
    refine ⟨?_, le_trans hle hstep.1, ?_⟩
    · rcases hmem with hmem | hmem
      · rw [List.foldl_cons, hmem]
        by_cases hlt : key y < key b
        · rw [if_pos hlt]; exact Or.inr (List.mem_cons_self _ _)
        · rw [if_neg hlt]; exact Or.inl rfl
      · rw [List.foldl_cons]; exact Or.inr (List.mem_cons_of_mem _ hmem)
    · intro x hx
      rcases List.mem_cons.mp hx with rfl | hx
      · exact le_trans hle hstep.2
      · exact hall x hx

theorem stableMinBy_spec {α : Type} (key : α → ℚ) (l : List α) (a : α)
    (h : stableMinBy key l = some a) : a ∈ l ∧ ∀ x ∈ l, key a ≤ key x := by
  cases l with
  | nil => simp [stableMinBy] at h
  | cons b rest =>
    simp only [stableMinBy, Option.some.injEq] at h
    obtain ⟨hmem, hle, hall⟩ := foldl_min_spec key rest b
    rw [h] at hmem hle hall
    constructor
    · rcases hmem with rfl | hmem
      · exact List.mem_cons_self _ _
      · exact List.mem_cons_of_mem _ hmem
    · intro x hx
      rcases List.mem_cons.mp hx with rfl | hx
      · exact hle
      · exact hall x hx

/-- Claim C4 (amended): when the alignment step returns a displacement for
a reference atom, that displacement points to a site image within the
search radius whose distance is minimal among all distorted-structure site
images within the radius (of any atom, not only the corresponding one;
ties go to the earliest entry in site-index order), and consequently the
displacement's squared magnitude is smaller than the squared cutoff
radius. -/
theorem C4_alignment_nearest_site (images : List (ℕ × V3)) (center : V3)
    (radius : ℚ) (v : V3)
    (hv : relative_vec images center radius = some v) :
    normSqV3 v < radius ^ 2 ∧
    ∃ s ∈ images, distSq s.2 center < radius ^ 2 ∧ v = subV3 s.2 center ∧
      ∀ t ∈ images, distSq t.2 center < radius ^ 2 →
        distSq s.2 center ≤ distSq t.2 center := by
  unfold relative_vec at hv
  cases hmin : stableMinBy (fun s => distSq s.2 center)
      (get_sites_in_sphere images center radius) with
  | none => rw [hmin] at hv; simp at hv
  | some s =>
    rw [hmin] at hv
    simp only [Option.some.injEq] at hv
    obtain ⟨hmem, hall⟩ := stableMinBy_spec _ _ _ hmin
    rw [get_sites_in_sphere, List.mem_filter, decide_eq_true_iff] at hmem
    have hnorm : normSqV3 v = distSq s.2 center := by
      rw [← hv]; rfl
    refine ⟨by rw [hnorm]; exact hmem.2, s, hmem.1, hmem.2, hv.symm, ?_⟩
    intro t ht htr
    refine hall t ?_
    rw [get_sites_in_sphere, List.mem_filter, decide_eq_true_iff]
    exact ⟨ht, htr⟩

/-- Claim C4 (amended) witness: a single candidate image within the
radius. -/
theorem C4_alignment_nearest_site_witness :
    (relative_vec [(0, ((1 : ℚ)/10, 0, 0))] ((0 : ℚ), 0, 0) 1
      = some ((1 : ℚ)/10, 0, 0)) ∧
    (normSqV3 ((1 : ℚ)/10, 0, 0) < (1 : ℚ) ^ 2 ∧
      ∃ s ∈ [(0, ((1 : ℚ)/10, 0, 0))],
        distSq s.2 ((0 : ℚ), 0, 0) < (1 : ℚ) ^ 2 ∧
        ((1 : ℚ)/10, (0 : ℚ), (0 : ℚ)) = subV3 s.2 ((0 : ℚ), 0, 0) ∧
        ∀ t ∈ [(0, ((1 : ℚ)/10, 0, 0))],
          distSq t.2 ((0 : ℚ), 0, 0) < (1 : ℚ) ^ 2 →
          distSq s.2 ((0 : ℚ), 0, 0) ≤ distSq t.2 ((0 : ℚ), 0, 0)) := by
  have hv : relative_vec [(0, ((1 : ℚ)/10, 0, 0))] ((0 : ℚ), 0, 0) 1
      = some ((1 : ℚ)/10, 0, 0) := by
    unfold relative_vec get_sites_in_sphere stableMinBy
    norm_num [distSq, normSqV3, subV3, dotV3]
  exact ⟨hv, C4_alignment_nearest_site [(0, ((1 : ℚ)/10, 0, 0))] ((0 : ℚ), 0, 0) 1
    ((1 : ℚ)/10, 0, 0) hv⟩

/-- Claim C4 counterexample: reference atom 0 sits at the origin; the
distorted structure has the corresponding atom's image at (9/10, 0, 0) and
another atom's image at (1/10, 0, 0), both inside the 1 Å search radius.
The code returns the vector to the globally nearest site, which belongs to
the other atom, so the computed displacement is not the vector to the
nearest image of the corresponding atom. -/
theorem C4_counterexample :
    relative_vec [(0, ((9 : ℚ)/10, 0, 0)), (1, ((1 : ℚ)/10, 0, 0))]
        ((0 : ℚ), 0, 0) 1 = some ((1 : ℚ)/10, 0, 0) ∧
    relative_vec_corresponding 0 [(0, ((9 : ℚ)/10, 0, 0)), (1, ((1 : ℚ)/10, 0, 0))]
        ((0 : ℚ), 0, 0) 1 = some ((9 : ℚ)/10, 0, 0) ∧
    relative_vec [(0, ((9 : ℚ)/10, 0, 0)), (1, ((1 : ℚ)/10, 0, 0))]
        ((0 : ℚ), 0, 0) 1
      ≠ relative_vec_corresponding 0 [(0, ((9 : ℚ)/10, 0, 0)), (1, ((1 : ℚ)/10, 0, 0))]
        ((0 : ℚ), 0, 0) 1 := by
  refine ⟨?_, ?_, ?_⟩
  · unfold relative_vec get_sites_in_sphere stableMinBy
    norm_num [distSq, normSqV3, subV3, dotV3]
  · unfold relative_vec_corresponding relative_vec get_sites_in_sphere stableMinBy
    norm_num [distSq, normSqV3, subV3, dotV3]
  · unfold relative_vec_corresponding relative_vec get_sites_in_sphere stableMinBy
    norm_num [distSq, normSqV3, subV3, dotV3]

/-- Claim C6: the alignment step produces a displacement for a reference
atom precisely when some distorted-structure site image lies within the
search radius; when no site is within the radius, sorted(...)[0] raises an
IndexError (modelled as the none result) and no displacement is silently
returned. -/
theorem C6_alignment_fails_without_neighbor (images : List (ℕ × V3))
    (center : V3) (radius : ℚ) :
    relative_vec images center radius = none ↔
      ∀ s ∈ images, ¬ distSq s.2 center < radius ^ 2 := by
  unfold relative_vec
  constructor
  · intro h s hs hlt
    cases hmin : stableMinBy (fun s => distSq s.2 center)
        (get_sites_in_sphere images center radius) with
    | some t => rw [hmin] at h; simp at h
    | none =>
      cases hfil : get_sites_in_sphere images center radius with
      | nil =>
        have : s ∈ get_sites_in_sphere images center radius := by
          rw [get_sites_in_sphere, List.mem_filter, decide_eq_true_iff]
          exact ⟨hs, hlt⟩
        rw [hfil] at this
        simp at this
      | cons a rest => rw [hfil] at hmin; simp [stableMinBy] at hmin
  · intro h
    have hfil : get_sites_in_sphere images center radius = [] := by
      rw [get_sites_in_sphere, List.filter_eq_nil]
      intro s hs
      simp only [decide_eq_true_iff]
      exact h s hs
    rw [hfil]
    rfl

/- Order-parameter regularizer (order_param_loss). -/

/-- Sum of the absolute values of all entries of a matrix given as a list
of rows: the numerator of torch's .abs().mean(). -/
def mat_abs_sum (a : List (List ℚ)) : ℚ :=
  (a.map (fun row => (row.map abs).sum)).sum

/-- Number of entries of a matrix given as a list of rows. -/
def numel (a : List (List ℚ)) : ℕ := (a.map List.length).sum

/-- torch's .abs().mean() on a matrix: the total of the absolute entries
divided by the number of entries. -/
def mat_abs_mean (a : List (List ℚ)) : ℚ := mat_abs_sum a / (numel a : ℚ)

/-- Column slice a[:, start : start + width] of a matrix. -/
def col_slice (a : List (List ℚ)) (start width : ℕ) : List (List ℚ) :=
  a.map (fun row => (row.drop start).take width)

/-- Loop of order_param_loss: the i-th irrep (m, L, p) contributes
scale * L^6 times the absolute mean of the column block starting at the
running offset rs.dim(Rs[:i]) with width m(2L + 1). -/
def order_param_loss_blocks (opi : List (List ℚ)) (scale : ℚ) :
    List (ℕ × ℕ × ℤ) → ℕ → ℚ
  | [], _ => 0
  | (m, L, _) :: rest, start =>
      scale * (L : ℚ) ^ 6 * mat_abs_mean (col_slice opi start (m * (2 * L + 1)))
        + order_param_loss_blocks opi scale rest (start + m * (2 * L + 1))

/-- order_param_loss of the main notebook: scale times the absolute mean
of the whole tensor, plus the per-irrep block terms with the severe L^6
penalty for higher orders. -/
def order_param_loss (opi : List (List ℚ)) (Rs : List (ℕ × ℕ × ℤ)) (scale : ℚ) : ℚ :=
  scale * mat_abs_mean opi + order_param_loss_blocks opi scale Rs 0

/-- Entrywise absolute-value domination between two matrices of identical
shape: the formalization of raising every entry's absolute value. -/
def absDominated (a b : List (List ℚ)) : Prop :=
  List.Forall₂ (List.Forall₂ (fun x y => |x| ≤ |y|)) a b

/-- Matrix with a single possibly nonzero entry: value v at row r, column
c of an Rn x Cn zero matrix. -/
def single_entry (Rn Cn r c : ℕ) (v : ℚ) : List (List ℚ) :=
  (List.range Rn).map (fun i => (List.range Cn).map (fun j => if i = r ∧ j = c then v else 0))

/-- Symmetry order L of the irrep block containing column c of an
order-parameter layout. -/
def col_L : List (ℕ × ℕ × ℤ) → ℕ → ℕ
  | [], _ => 0
  | (m, L, _) :: rest, c =>
      if c < m * (2 * L + 1) then L else col_L rest (c - m * (2 * L + 1))

/-- Marginal penalty per unit magnitude that order_param_loss assigns to a
single component of a 4 x 18 order-parameter tensor lying in a block of
symmetry order L: the global mean term plus the L^6-weighted block-mean
term. -/
def penalty_of (L : ℕ) : ℚ :=
  1/100 * (1/72) + 1/100 * (L : ℚ) ^ 6 * (1 / (4 * (2 * (L : ℚ) + 1)))

theorem row_abs_sum_mono {r s : List ℚ}
    (h : List.Forall₂ (fun x y => |x| ≤ |y|) r s) :
    (r.map abs).sum ≤ (s.map abs).sum := by
  induction h with
  | nil => simp
  | cons hxy _ ih => simpa using add_le_add hxy ih

theorem mat_abs_sum_mono {a b : List (List ℚ)} (h : absDominated a b) :
    mat_abs_sum a ≤ mat_abs_sum b := by
  induction h with
  | nil => simp [mat_abs_sum]
  | cons hr _ ih =>
    simp only [mat_abs_sum, List.map_cons, List.sum_cons] at ih ⊢
    exact add_le_add (row_abs_sum_mono hr) ih

theorem numel_eq_of_dominated {a b : List (List ℚ)} (h : absDominated a b) :
    numel a = numel b := by
  induction h with
  | nil => rfl
  | cons hr _ ih =>
    simp only [numel, List.map_cons, List.sum_cons] at ih ⊢
    rw [hr.length_eq, ih]

theorem mat_abs_sum_nonneg (a : List (List ℚ)) : 0 ≤ mat_abs_sum a := by
  unfold mat_abs_sum
  apply List.sum_nonneg
  intro x hx
  obtain ⟨row, _, rfl⟩ := List.mem_map.mp hx
  apply List.sum_nonneg
  intro y hy
  obtain ⟨q, _, rfl⟩ := List.mem_map.mp hy
  exact abs_nonneg q

theorem mat_abs_mean_mono {a b : List (List ℚ)} (h : absDominated a b) :
    mat_abs_mean a ≤ mat_abs_mean b := by
  unfold mat_abs_mean
  rw [numel_eq_of_dominated h]
  exact div_le_div_of_nonneg_right (mat_abs_sum_mono h) (Nat.cast_nonneg _)

theorem mat_abs_mean_nonneg (a : List (List ℚ)) : 0 ≤ mat_abs_mean a :=
  div_nonneg (mat_abs_sum_nonneg a) (Nat.cast_nonneg _)

theorem absDominated_col_slice {a b : List (List ℚ)} (h : absDominated a b)
    (start width : ℕ) :
    absDominated (col_slice a start width) (col_slice b start width) := by
  induction h with
  | nil => exact List.Forall₂.nil
  | cons hr _ ih =>
    exact List.Forall₂.cons
      (List.forall₂_take width (List.forall₂_drop start hr)) ih

theorem order_param_loss_blocks_mono {a b : List (List ℚ)} (h : absDominated a b)
    (scale : ℚ) (hscale : 0 ≤ scale) (Rs : List (ℕ × ℕ × ℤ)) :
    ∀ start, order_param_loss_blocks a scale Rs start
      ≤ order_param_loss_blocks b scale Rs start := by
  induction Rs with
  | nil => intro start; exact le_rfl
  | cons r rest ih =>
    intro start
    obtain ⟨m, L, p⟩ := r
    simp only [order_param_loss_blocks]
    refine add_le_add ?_ (ih _)
    apply mul_le_mul_of_nonneg_left (mat_abs_mean_mono (absDominated_col_slice h _ _))
    positivity

set_option maxHeartbeats 2000000 in
theorem single_entry_loss_eval (v : ℚ) (c : Fin 18) :
    order_param_loss (single_entry 4 18 0 (c : ℕ) v) Rs_order_param (1/100)
      = |v| * penalty_of (col_L Rs_order_param (c : ℕ)) := by
  fin_cases c <;>
  · simp only [order_param_loss, order_param_loss_blocks, Rs_order_param, single_entry,
      col_L, mat_abs_mean, mat_abs_sum, numel, col_slice, penalty_of,
      List.range_succ, List.range_zero, List.map_nil, List.map_append, List.map_cons,
      List.sum_cons, List.sum_nil, List.sum_append, List.nil_append, List.cons_append,
      List.length_nil, List.length_cons, List.drop, List.take]
    norm_num
    ring_nf

theorem penalty_of_mono {a b : ℕ} (h : a ≤ b) : penalty_of a ≤ penalty_of b := by
  unfold penalty_of
  have ha : (0 : ℚ) ≤ (a : ℚ) := Nat.cast_nonneg a
  have hb : (0 : ℚ) ≤ (b : ℚ) := Nat.cast_nonneg b
  have hab : (a : ℚ) ≤ (b : ℚ) := by exact_mod_cast h
  have h5 : (a : ℚ) ^ 5 ≤ (b : ℚ) ^ 5 := pow_le_pow_left ha hab 5
  have h6 : (a : ℚ) ^ 6 ≤ (b : ℚ) ^ 6 := pow_le_pow_left ha hab 6
  have h1 : (0 : ℚ) < 4 * (2 * (a : ℚ) + 1) := by positivity
  have h2 : (0 : ℚ) < 4 * (2 * (b : ℚ) + 1) := by positivity
  have key : (a : ℚ) ^ 6 * (4 * (2 * (b : ℚ) + 1))
      ≤ (b : ℚ) ^ 6 * (4 * (2 * (a : ℚ) + 1)) := by
    nlinarith [mul_nonneg (mul_nonneg ha hb) (sub_nonneg.mpr h5), sub_nonneg.mpr h6]
  have frac : (a : ℚ) ^ 6 / (4 * (2 * (a : ℚ) + 1))
      ≤ (b : ℚ) ^ 6 / (4 * (2 * (b : ℚ) + 1)) := (div_le_div_iff h1 h2).mpr key
  have ea : (1 : ℚ)/100 * (a : ℚ) ^ 6 * (1 / (4 * (2 * (a : ℚ) + 1)))
      = 1/100 * ((a : ℚ) ^ 6 / (4 * (2 * (a : ℚ) + 1))) := by ring
  have eb : (1 : ℚ)/100 * (b : ℚ) ^ 6 * (1 / (4 * (2 * (b : ℚ) + 1)))
      = 1/100 * ((b : ℚ) ^ 6 / (4 * (2 * (b : ℚ) + 1))) := by ring
  rw [ea, eb]
  exact add_le_add_left (mul_le_mul_of_nonneg_left frac (by norm_num)) _

/-- Claim C3: the order-parameter regularizer is monotone in the entrywise
absolute values of the tensor (raising absolute values, in particular
scaling the tensor's L1 magnitude up, never decreases the loss), and for a
4 x 18 tensor holding a single component of magnitude |v|, the loss under
the notebook's layout Rs_order_param and scale 1/100 equals |v| times a
per-unit penalty determined by the component's symmetry order L, a penalty
monotone in L, so that of two equal-magnitude components the one in a
higher-L block is penalized at least as strongly. -/
theorem C3_order_param_loss_monotone (a b : List (List ℚ))
    (Rs : List (ℕ × ℕ × ℤ)) (scale : ℚ) (v : ℚ) (c₁ c₂ : Fin 18)
    (hdom : absDominated a b) (hscale : 0 ≤ scale)
    (hL : col_L Rs_order_param (c₁ : ℕ) ≤ col_L Rs_order_param (c₂ : ℕ)) :
    order_param_loss a Rs scale ≤ order_param_loss b Rs scale ∧
    order_param_loss (single_entry 4 18 0 (c₁ : ℕ) v) Rs_order_param (1/100)
      ≤ order_param_loss (single_entry 4 18 0 (c₂ : ℕ) v) Rs_order_param (1/100) := by
  constructor
  · exact add_le_add
      (mul_le_mul_of_nonneg_left (mat_abs_mean_mono hdom) hscale)
      (order_param_loss_blocks_mono hdom scale hscale Rs 0)
  · rw [single_entry_loss_eval v c₁, single_entry_loss_eval v c₂]
    exact mul_le_mul_of_nonneg_left (penalty_of_mono hL) (abs_nonneg v)

/-- Claim C3 witness: a one-entry tensor dominated by a doubled one, and a
single component of magnitude 5 placed in the first L = 0 column versus
the first L = 1 column of the 4 x 18 layout. -/
theorem C3_order_param_loss_monotone_witness :
    absDominated [[(1 : ℚ)]] [[(2 : ℚ)]] ∧ ((0 : ℚ) ≤ 1/100) ∧
    col_L Rs_order_param ((0 : Fin 18) : ℕ) ≤ col_L Rs_order_param ((2 : Fin 18) : ℕ) ∧
    (order_param_loss [[(1 : ℚ)]] Rs_order_param (1/100)
        ≤ order_param_loss [[(2 : ℚ)]] Rs_order_param (1/100) ∧
      order_param_loss (single_entry 4 18 0 ((0 : Fin 18) : ℕ) 5) Rs_order_param (1/100)
        ≤ order_param_loss (single_entry 4 18 0 ((2 : Fin 18) : ℕ) 5) Rs_order_param (1/100)) :=
  ⟨by norm_num [absDominated, List.forall₂_cons],
   by norm_num,
   by norm_num [col_L, Rs_order_param],
   C3_order_param_loss_monotone [[(1 : ℚ)]] [[(2 : ℚ)]] Rs_order_param (1/100) 5 0 2
     (by norm_num [absDominated, List.forall₂_cons])
     (by norm_num)
     (by norm_num [col_L, Rs_order_param])⟩

end SymmBreaking
